import Mathlib

/-!
# Verification of `data_analysis.py`

A shallow embedding, in Lean 4, of the analytic core of the repository's
`data_analysis.py`, together with proofs and refutations of the specified
properties of its operations:

* `find_closest_sensors` — nearest-sensor search after broker filtering and
  reprojection to a planar CRS;
* `resample_sensors_timeseries` — per-(sensor, variable) bucketed resampling
  with mean/flag-max aggregation;
* `get_road_geometries` — per-record shortest-path routing with straight-line
  fallback;
* `convert_long_df_to_wide` — long-to-wide pivot keyed by timestamp and the
  combined `{Sensor_Name}_{Variable}` column name;
* `clean_data` — negative-value nulling, IQR outlier nulling and gap-limited
  time interpolation;
* `decompose_timeseries` — MSTL decomposition wrapper;
* `get_valid_scenario_dates` — scenario-date selection.

Conventions of the embedding:

* Timestamps sit on the integer grid: a wide table's column is a
  `List (Option ℚ)` giving the value at consecutive frequency buckets
  (`none` = NaN/missing).  On the regular grid produced by the source's
  `pd.date_range` reindexing, pandas' "time"-weighted interpolation weights
  reduce to bucket-position differences, so positions are represented by
  natural numbers.
* Float values are represented by `ℚ` (exact arithmetic; the source's
  float64 semantics at these operations is the real-number semantics).
* The source ranks sensors by Euclidean planar distance; the embedding ranks
  by squared Euclidean distance, which induces the same order while staying
  inside `ℚ` (no square roots needed for comparisons).
* `sort_values("Distance")` in `find_closest_sensors` uses pandas' default
  `kind='quicksort'`, which pandas documents as NOT stable: its tie order is
  an unspecified library behaviour.  The embedding therefore abstracts it as
  a function parameter, and theorems assume only its documented contract —
  the output is a permutation of the rows, non-decreasing in the key.
  The sorts whose tie order is irrelevant (the resampler's `sort_index`,
  about which only order-insensitive membership facts are proved, and the
  sorted distinct index/column labels of `pivot` and the sorted values
  inside `quantile`, where keys are distinct or interchangeable) are
  modelled by a concrete comparison sort.
* Library behaviour that can raise (pivot duplicate keys, routing, nearest
  node lookup) is modelled with `Except`/`Option` results.
-/

namespace DataAnalysis

/-! ## `find_closest_sensors` (source lines 18–53)

The reprojection `to_crs("EPSG:27700")` is an injective map supplied by the
geometry library; the embedding abstracts it as a function `toPlanar`
applied — exactly as in the source — both to the query point and to every
candidate geometry before any distance is computed. -/

/-- A planar/geographic point. -/
abbrev Pt := ℚ × ℚ

/-- One row of the sensor-locations frame: `Sensor_Name`, `Broker_Name`,
and the point geometry. -/
structure SensorLoc where
  sensorName : String
  brokerName : String
  geometry : Pt
deriving DecidableEq

/-- `filter_by_broker_name`: keep rows whose `Broker_Name` is among
`broker_names` (the source wraps a single string into a one-element list). -/
def filter_by_broker_name (gdf : List SensorLoc) (broker_names : List String) :
    List SensorLoc :=
  gdf.filter (fun s => broker_names.contains s.brokerName)

/-- Squared Euclidean distance between two planar points.  The source ranks by
Euclidean distance; squaring is strictly monotone on nonnegative reals, so the
induced ranking (the only use made of the distance) is identical. -/
def distSq (a b : Pt) : ℚ := (a.1 - b.1) ^ 2 + (a.2 - b.2) ^ 2

/-- The filtered candidate list paired with its `Distance` column, as built by
the source before sorting. -/
def candidatesWithDist (toPlanar : Pt → Pt) (gdf : List SensorLoc) (point : Pt)
    (broker_name : String) : List (String × ℚ) :=
  (filter_by_broker_name gdf [broker_name]).map
    (fun s => (s.sensorName, distSq (toPlanar s.geometry) (toPlanar point)))

/-- `find_closest_sensors`: filter by broker, reproject, rank by planar
distance with `gdf.sort_values("Distance")`, return the first `n` sensor
names (`gdf["Sensor_Name"][0:n]`).  `sort_values` — pandas' default
`kind='quicksort'`, documented as not stable, so with library-chosen tie
order — is abstracted as the function parameter `sort_values`; theorems
assume of it only the documented sort contract (a permutation of the rows,
non-decreasing in the `Distance` key). -/
def find_closest_sensors (toPlanar : Pt → Pt)
    (sort_values : List (String × ℚ) → List (String × ℚ)) (gdf : List SensorLoc)
    (point : Pt) (broker_name : String) (n : Nat) : List String :=
  ((sort_values (candidatesWithDist toPlanar gdf point broker_name)).take n).map Prod.fst

/-! ## `resample_sensors_timeseries` (source lines 55–82)

Timestamps are integers in an arbitrary base unit, and a frequency is a
positive bucket width in that unit; pandas' fixed-frequency bins aligned to
the epoch are the intervals `[b*freq, (b+1)*freq)` labelled by their left
edge. -/

/-- One row of the long time-series frame: `Sensor_Name`, `Variable`,
timestamp index, `Value`, `Flagged`. -/
structure Reading where
  sensorName : String
  varName : String
  t : Nat
  value : ℚ
  flagged : Bool
deriving DecidableEq

/-- Minimum of a list of naturals (`0` on `[]`; used on nonempty lists only). -/
def natListMin : List Nat → Nat
  | [] => 0
  | [a] => a
  | a :: b :: r => min a (natListMin (b :: r))

/-- Maximum of a list of naturals. -/
def natListMax : List Nat → Nat
  | [] => 0
  | [a] => a
  | a :: b :: r => max a (natListMax (b :: r))

/-- Mean of a list of rationals (pandas: NaN on the empty list, which callers
subsequently drop; the embedding never applies it to `[]`). -/
def meanQ (l : List ℚ) : ℚ := l.sum / l.length

/-- The bucket (left-edge index) containing timestamp `t` at frequency `freq`. -/
def bucketOf (freq t : Nat) : Nat := t / freq

/-- The rows of one `(Sensor_Name, Variable)` group, in input order. -/
def groupRows (rows : List Reading) (s v : String) : List Reading :=
  rows.filter (fun r => r.sensorName == s && r.varName == v)

/-- Aggregation of one resample bucket of one group: `Value` → mean,
`Flagged` → max (logical or).  `none` models the NaN mean of an empty bucket,
which the source removes with `dropna(subset=["Value"])`. -/
def aggBucket (s v : String) (freq b : Nat) (g : List Reading) : Option Reading :=
  let vals := g.filter (fun r => bucketOf freq r.t == b)
  if vals.isEmpty then none
  else some ⟨s, v, b * freq, meanQ (vals.map Reading.value), vals.any Reading.flagged⟩

/-- Resampled output of one group: one row per non-empty bucket, over the
bucket range spanned by the group's timestamps. -/
def resampleGroup (rows : List Reading) (freq : Nat) (s v : String) : List Reading :=
  let g := groupRows rows s v
  let bs := g.map (fun r => bucketOf freq r.t)
  (List.range' (natListMin bs) (natListMax bs + 1 - natListMin bs)).filterMap
    (fun b => aggBucket s v freq b g)

/-- Distinct `(Sensor_Name, Variable)` keys in pandas `groupby` order
(group keys sorted lexicographically). -/
def groupKeys (rows : List Reading) : List (String × String) :=
  ((rows.map (fun r => (r.sensorName, r.varName))).dedup).insertionSort
    (fun a b => a.1 < b.1 ∨ (a.1 = b.1 ∧ a.2 ≤ b.2))

/-- `resample_sensors_timeseries`: group by `(Sensor_Name, Variable)`,
aggregate each frequency bucket (mean / flag-max), drop empty buckets, and
sort the concatenated result by timestamp (`sort_index`, stable). -/
def resample_sensors_timeseries (rows : List Reading) (freq : Nat) : List Reading :=
  (((groupKeys rows).map (fun k => resampleGroup rows freq k.1 k.2)).flatten).insertionSort
    (fun a b => a.t ≤ b.t)

/-! ## `get_road_geometries` (source lines 84–128)

The street graph, nearest-node lookup (`ox.nearest_nodes`), shortest path
(`nx.shortest_path`) and route-to-geometry conversion
(`route_to_gdf`/`unary_union`/`to_crs`) are external library services; the
embedding abstracts them as function parameters.  What belongs to the
repository — and what the claim is about — is the control flow of the loop:
`nearest_nodes` is called OUTSIDE the `try` block, so its failures propagate
(modelled by `Except` bind), while `shortest_path`/geometry failures
(`nx.NetworkXNoPath`, `ValueError`) are caught inside the `try` and replaced
by the original straight-line geometry (modelled by `Option`). -/

/-- A linestring with at least one coordinate (the WKT link geometries have
two endpoints, so `coords[0]` and `coords[-1]` are total on them). -/
structure Geom where
  first : Pt
  rest : List Pt
deriving DecidableEq

/-- `geometry.coords[0]`. -/
def Geom.startPoint (g : Geom) : Pt := g.first

/-- `geometry.coords[-1]`. -/
def Geom.endPoint (g : Geom) : Pt := (g.first :: g.rest).getLast (List.cons_ne_nil _ _)

/-- The body of the per-record loop: nearest-node lookups (outside the `try`;
failures escape), then shortest-path routing (inside the `try`; `none` models
a caught `NetworkXNoPath`/`ValueError`, falling back to the original
geometry). -/
def routeOne (nearestNode : Pt → Except String Nat)
    (shortestPath : Nat → Nat → Option (List Nat)) (routeToGeom : List Nat → Geom)
    (geometry : Geom) : Except String Geom := do
  let origNode ← nearestNode geometry.startPoint
  let destNode ← nearestNode geometry.endPoint
  match shortestPath origNode destNode with
  | some routeNodes => pure (routeToGeom routeNodes)
  | none => pure geometry

/-- `get_road_geometries`: route every record, then compute the length column
from each record's final geometry (`gdf.to_crs(...).length`, abstracted as
`lengthOf`). -/
def get_road_geometries (nearestNode : Pt → Except String Nat)
    (shortestPath : Nat → Nat → Option (List Nat)) (routeToGeom : List Nat → Geom)
    (lengthOf : Geom → ℚ) (gSeries : List Geom) : Except String (List (Geom × ℚ)) := do
  let finalGeometries ← gSeries.mapM (routeOne nearestNode shortestPath routeToGeom)
  pure (finalGeometries.map (fun g => (g, lengthOf g)))

/-! ## `convert_long_df_to_wide` (source lines 142–158) -/

/-- One row of the long frame after `reset_index()`: `Timestamp`,
`Sensor_Name`, `Variable`, `Value`. -/
structure LongRow where
  t : Nat
  sensorName : String
  varName : String
  value : ℚ
deriving DecidableEq

/-- The combined column name `Sensor_Name + "_" + Variable`. -/
def columnNameOf (r : LongRow) : String := r.sensorName ++ "_" ++ r.varName

/-- The wide frame: timestamp index (sorted, distinct), column names (sorted,
distinct), and the cell contents as a `(timestamp, column, value)`
association list. -/
structure WideDF where
  timestamps : List Nat
  colNames : List String
  cells : List (Nat × String × ℚ)
deriving DecidableEq

/-- Cell lookup: the value at `(t, c)`, `none` for an absent combination. -/
def WideDF.cell (w : WideDF) (t : Nat) (c : String) : Option ℚ :=
  (w.cells.find? (fun e => e.1 == t && e.2.1 == c)).map (fun e => e.2.2)

/-- `convert_long_df_to_wide`: build `Column_Name`, then
`pivot(index="Timestamp", columns="Column_Name", values="Value")`.  pandas
`pivot` raises `ValueError: Index contains duplicate entries, cannot reshape`
exactly when two rows share the `(Timestamp, Column_Name)` pair; otherwise the
output has the sorted distinct timestamps as index and sorted distinct
combined column names as columns. -/
def convert_long_df_to_wide (long_df : List LongRow) : Except String WideDF :=
  if (long_df.map (fun r => (r.t, columnNameOf r))).Nodup then
    .ok ⟨((long_df.map (fun r => r.t)).dedup).insertionSort (· ≤ ·),
         ((long_df.map columnNameOf).dedup).insertionSort (· ≤ ·),
         long_df.map (fun r => (r.t, columnNameOf r, r.value))⟩
  else .error "Index contains duplicate entries, cannot reshape"

/-! ## `clean_data` (source lines 172–211)

A wide-frame column is a `List (Option ℚ)`: the value at each consecutive
frequency bucket of the reindexed calendar (`none` = NaN).  Every cleaning
step of the source acts on each column independently; the
`pd.date_range` reindex is the identity on this representation, and on the
resulting regular grid the "time" interpolation weights are the bucket-index
differences. -/

/-- `df[df < 0] = np.nan`: null the negative values (NaN < 0 is false, so
nulls stay null). -/
def nullNegatives (col : List (Option ℚ)) : List (Option ℚ) :=
  col.map (fun x => x.bind (fun v => if v < 0 then none else some v))

/-- The non-null values of a column. -/
def someValues (col : List (Option ℚ)) : List ℚ := col.reduceOption

/-- Floor of a nonnegative rational as a natural number (numerator integer
division by denominator; quantile positions `q·(len − 1)` with `0 ≤ q` are
nonnegative, so this is numpy's integer part of the position). -/
def ratFloorNat (h : ℚ) : Nat := h.num.toNat / h.den

/-- pandas `Series.quantile(q)` (default linear interpolation) over the
non-null values: with `s` the sorted values and `h = q·(len − 1)`, the result
is `s[⌊h⌋] + (h − ⌊h⌋)·(s[⌊h⌋+1] − s[⌊h⌋])`; NaN (here `none`) when no
non-null value exists. -/
def quantileLinear (xs : List ℚ) (q : ℚ) : Option ℚ :=
  let s := xs.insertionSort (· ≤ ·)
  match s.length with
  | 0 => none
  | m' + 1 =>
    let h : ℚ := q * m'
    let i : Nat := ratFloorNat h
    let frac : ℚ := h - i
    some (s.getD i 0 + (s.getD (i + 1) (s.getD i 0) - s.getD i 0) * frac)

/-- `Q1 − 3·IQR` of a column's non-null values (`none` when the column has no
non-null values: pandas' NaN bounds make every comparison false). -/
def lowerBoundOf (col : List (Option ℚ)) : Option ℚ :=
  match quantileLinear (someValues col) (1/4), quantileLinear (someValues col) (3/4) with
  | some q1, some q3 => some (q1 - 3 * (q3 - q1))
  | _, _ => none

/-- `Q3 + 3·IQR` of a column's non-null values. -/
def upperBoundOf (col : List (Option ℚ)) : Option ℚ :=
  match quantileLinear (someValues col) (1/4), quantileLinear (someValues col) (3/4) with
  | some q1, some q3 => some (q3 + 3 * (q3 - q1))
  | _, _ => none

/-- `df[(df < lower) | (df > upper)] = np.nan`: null the values outside the
IQR bounds.  When the bounds are NaN (all-null column) every comparison is
false and the column is unchanged. -/
def nullOutliers (col : List (Option ℚ)) : List (Option ℚ) :=
  match lowerBoundOf col, upperBoundOf col with
  | some lo, some hi =>
      col.map (fun x => x.bind (fun v => if v < lo ∨ hi < v then none else some v))
  | _, _ => col

/-- Index of the last non-null entry strictly before position `i`. -/
def prevValidIdx (col : List (Option ℚ)) : Nat → Option Nat
  | 0 => none
  | i + 1 => if (col.getD i none).isSome then some i else prevValidIdx col i

/-- Offset of the first non-null entry of a column. -/
def firstSomeIdx : List (Option ℚ) → Option Nat
  | [] => none
  | some _ :: _ => some 0
  | none :: xs => (firstSomeIdx xs).map (· + 1)

/-- Index of the first non-null entry strictly after position `i`. -/
def nextValidIdx (col : List (Option ℚ)) (i : Nat) : Option Nat :=
  (firstSomeIdx (col.drop (i + 1))).map (· + (i + 1))

/-- The value `np.interp` (the engine behind `interpolate(method="time")` on
this grid) produces at position `i`: linear interpolation between the
surrounding non-null entries, and the nearest non-null value beyond the first
or last of them (`np.interp` clamps out-of-range queries to the boundary
value). -/
def interpValue (col : List (Option ℚ)) (i : Nat) : Option ℚ :=
  match prevValidIdx col i, nextValidIdx col i with
  | some p, some q =>
      match col.getD p none, col.getD q none with
      | some vp, some vq => some (vp + (vq - vp) * ((i : ℚ) - p) / ((q : ℚ) - p))
      | _, _ => none
  | some p, none => col.getD p none
  | none, some q => col.getD q none
  | none, none => none

/-- `df.interpolate(method="time", limit=max_gap, limit_direction="both")` on
the regular grid: a null at position `i` is filled exactly when it lies within
`max_gap` positions of a non-null entry on at least one side (pandas' limit
mask preserves a null only when it violates the limit in BOTH directions, and
a null with no valid entry on a side violates that direction unconditionally);
the filled value is the `np.interp` value. -/
def interpolateTimeBoth (col : List (Option ℚ)) (max_gap : Nat) : List (Option ℚ) :=
  (List.range col.length).map (fun i =>
    match col.getD i none with
    | some v => some v
    | none =>
        let nearPrev : Bool := match prevValidIdx col i with
          | some p => decide (i - p ≤ max_gap)
          | none => false
        let nearNext : Bool := match nextValidIdx col i with
          | some q => decide (q - i ≤ max_gap)
          | none => false
        if nearPrev || nearNext then interpValue col i else none)

/-- `clean_data` restricted to one column: null negatives, null IQR outliers
(bounds computed after negative removal), then gap-limited interpolation. -/
def cleanColumn (col : List (Option ℚ)) (max_gap : Nat) : List (Option ℚ) :=
  interpolateTimeBoth (nullOutliers (nullNegatives col)) max_gap

/-- `clean_data`: every column cleaned independently (`max_gap` defaults to
24 in the source). -/
def clean_data (df : List (List (Option ℚ))) (max_gap : Nat) : List (List (Option ℚ)) :=
  df.map (fun col => cleanColumn col max_gap)

/-! ## `decompose_timeseries` (source lines 232–261) -/

/-- `data.interpolate(method="linear")` with pandas defaults
(`limit_direction="forward"`, no limit): every null with a preceding valid
value is filled — interior nulls by positional linear interpolation, trailing
nulls with the last valid value (`np.interp` clamps); leading nulls remain
null. -/
def interpolateLinearForward (data : List (Option ℚ)) : List (Option ℚ) :=
  (List.range data.length).map (fun i =>
    match data.getD i none with
    | some v => some v
    | none =>
        match prevValidIdx data i with
        | some _ => interpValue data i
        | none => none)

/-- One row of the decomposition result: `Original`, `trend`, the seasonal
components for periods 24/168/730 — renamed `Daily`, `Weekly`, `Monthly` by
the source's `name_map` — and `resid`. -/
structure DecompRow where
  original : ℚ
  trend : ℚ
  daily : ℚ
  weekly : ℚ
  monthly : ℚ
  resid : ℚ
deriving DecidableEq

/-- Modelled from the library contract of statsmodels' `MSTL` (third-party
code, not part of this repository): `MSTL(data, periods=[24, 168, 730]).fit()`
returns an additive decomposition — a trend series, one seasonal series per
period and the residual, all aligned to the input index, where statsmodels
constructs the residual as the remainder `y − trend − Σ seasonal`.  The
smoothing internals are abstracted as the function parameters `trendF`,
`seasF24`, `seasF168`, `seasF730`; the residual is the remainder by
construction, which is the entire content the claims rely on. -/
def mstlFit (trendF seasF24 seasF168 seasF730 : List ℚ → List ℚ) (y : List ℚ) :
    List DecompRow :=
  (List.range y.length).map (fun i =>
    let yv := y.getD i 0
    let tv := (trendF y).getD i 0
    let s24 := (seasF24 y).getD i 0
    let s168 := (seasF168 y).getD i 0
    let s730 := (seasF730 y).getD i 0
    ⟨yv, tv, s24, s168, s730, yv - tv - s24 - s168 - s730⟩)

/-- `decompose_timeseries`: linearly interpolate remaining gaps, fit MSTL
with periods `[24, 168, 730]`, rename the seasonal columns to
Daily/Weekly/Monthly, and concatenate `Original` (the gap-filled data),
trend, seasonals and residual into one table.  `none` models the library
error on a series whose leading nulls survive the forward-only
interpolation.  The `index` parameter mirrors the source signature's first
positional argument, which the body never reads. -/
def decompose_timeseries (trendF seasF24 seasF168 seasF730 : List ℚ → List ℚ)
    (index : List Nat) (data : List (Option ℚ)) : Option (List DecompRow) :=
  let d := interpolateLinearForward data
  if d.all (fun x => x.isSome) then
    some (mstlFit trendF seasF24 seasF168 seasF730 d.reduceOption)
  else none

/-! ## `get_valid_scenario_dates` (source lines 263–297) -/

/-- A timestamp of the wide frame's index: pandas `dayofweek`
(Monday = 0 … Sunday = 6; Thursday = 3), `hour`, and an underlying absolute
time value `t` giving index order and identity. -/
structure TS where
  dow : Nat
  hour : Nat
  t : Nat
deriving DecidableEq

/-- A wide frame for scenario-date selection: column names, plus rows in
index order — each a timestamp with one optional value per column. -/
structure ScenarioDF where
  colNames : List String
  rows : List (TS × List (Option ℚ))
deriving DecidableEq

/-- The cell of a row in column number `ci`. -/
def cellAt (row : TS × List (Option ℚ)) (ci : Nat) : Option ℚ := row.2.getD ci none

/-- The Thursday-17:00 rows (`df.index.dayofweek == 3` and
`df.index.hour == 17`). -/
def thursdayRows (df : ScenarioDF) : List (TS × List (Option ℚ)) :=
  df.rows.filter (fun r => r.1.dow == 3 && r.1.hour == 17)

/-- The Monday-10:00 rows. -/
def mondayRows (df : ScenarioDF) : List (TS × List (Option ℚ)) :=
  df.rows.filter (fun r => r.1.dow == 0 && r.1.hour == 10)

/-- `dropna(subset=[check_col])` followed by reading `check_col`: the rows
with data in column `ci`, as (timestamp, value) pairs in index order. -/
def validAt (ci : Nat) (rows : List (TS × List (Option ℚ))) : List (TS × ℚ) :=
  rows.filterMap (fun r => (cellAt r ci).map (fun v => (r.1, v)))

/-- pandas `idxmax`: the first entry attaining the maximum value (later
entries replace the current best only when strictly greater). -/
def idxmaxP : (TS × ℚ) → List (TS × ℚ) → TS × ℚ
  | best, [] => best
  | best, x :: xs => if best.2 < x.2 then idxmaxP x xs else idxmaxP best xs

/-- `get_valid_scenario_dates`: matching columns are those ending with
`variable_suffix` and `check_col` is the first of them; the result pairs the
Thursday-17:00 timestamp with the maximum `check_col` value and the first
Monday-10:00 timestamp with data, raising (modelled by `Except.error` with
the source's message) when a required set is empty. -/
def get_valid_scenario_dates (df : ScenarioDF) (variable_suffix : String) :
    Except String (TS × TS) :=
  match df.colNames.findIdx? (fun c => c.endsWith variable_suffix) with
  | none => .error ("No columns found with suffix " ++ variable_suffix)
  | some ci =>
    match validAt ci (thursdayRows df) with
    | [] => .error "No valid data found for any Thursday at 17:00"
    | t0 :: restT =>
      let worst := idxmaxP t0 restT
      match validAt ci (mondayRows df) with
      | [] => .error "No valid data found for any Monday at 10:00"
      | m0 :: _ => .ok (worst.1, m0.1)

/-! ## Theorems -/

/-- C2 (counterexample): the claim's "ties broken by input order (stable
sort)" is not a guarantee the program has.  The source sorts with
`gdf.sort_values("Distance")` using pandas' default `kind='quicksort'`,
which pandas documents as not stable, so the order among equal distances is
chosen by the library.  Here two sensors are equidistant from the query
point, and the exhibited sort behaviour — reversing the two equal-key rows —
satisfies everything `sort_values` is documented to guarantee on this input
(first two conjuncts: a permutation of the candidate rows, non-decreasing in
the `Distance` key), yet the call returns the ties in the REVERSE of input
order (last two conjuncts). -/
theorem find_closest_sensors_tie_order_counterexample :
    ((fun l : List (String × ℚ) => l.reverse)
        (candidatesWithDist id [⟨"PER_A", "aq", (0, 0)⟩, ⟨"PER_B", "aq", (0, 0)⟩]
          (0, 0) "aq")).Perm
      (candidatesWithDist id [⟨"PER_A", "aq", (0, 0)⟩, ⟨"PER_B", "aq", (0, 0)⟩] (0, 0) "aq")
    ∧ List.Sorted (fun a b : String × ℚ => a.2 ≤ b.2)
        ((fun l : List (String × ℚ) => l.reverse)
          (candidatesWithDist id [⟨"PER_A", "aq", (0, 0)⟩, ⟨"PER_B", "aq", (0, 0)⟩]
            (0, 0) "aq"))
    ∧ find_closest_sensors id (fun l => l.reverse)
        [⟨"PER_A", "aq", (0, 0)⟩, ⟨"PER_B", "aq", (0, 0)⟩] (0, 0) "aq" 2
        = ["PER_B", "PER_A"]
    ∧ (candidatesWithDist id [⟨"PER_A", "aq", (0, 0)⟩, ⟨"PER_B", "aq", (0, 0)⟩]
        (0, 0) "aq").map Prod.fst = ["PER_A", "PER_B"] := by
  refine ⟨?_, ?_, ?_, ?_⟩
  · with_unfolding_all decide
  · with_unfolding_all decide
  · with_unfolding_all decide
  · with_unfolding_all decide

/-- C2 (amended): for every sort behaviour satisfying `sort_values`'
documented contract on the candidate rows — the output is a permutation of
them, non-decreasing in the `Distance` key — `find_closest_sensors` returns
the first `n` names of that sorted order: the result is the `n`-truncation of
a non-decreasing-distance ordering, has `min n (number of candidates)`
entries, and when `n` is at least the candidate count it is exactly the
candidates' names (up to the sort's permutation) — no error path exists.
The order among equidistant sensors is whatever the library sort produces
(pandas' default quicksort is documented not stable), so no tie-order
guarantee is stated. -/
theorem find_closest_sensors_ordered_truncated (toPlanar : Pt → Pt)
    (sort_values : List (String × ℚ) → List (String × ℚ)) (gdf : List SensorLoc)
    (point : Pt) (broker_name : String) (n : Nat)
    (hperm : (sort_values (candidatesWithDist toPlanar gdf point broker_name)).Perm
      (candidatesWithDist toPlanar gdf point broker_name))
    (hsorted : List.Sorted (fun a b : String × ℚ => a.2 ≤ b.2)
      (sort_values (candidatesWithDist toPlanar gdf point broker_name))) :
    find_closest_sensors toPlanar sort_values gdf point broker_name n
        = ((sort_values (candidatesWithDist toPlanar gdf point broker_name)).take n).map
            Prod.fst
    ∧ (find_closest_sensors toPlanar sort_values gdf point broker_name n).length
        = min n (candidatesWithDist toPlanar gdf point broker_name).length
    ∧ List.Sorted (· ≤ ·)
        (((sort_values (candidatesWithDist toPlanar gdf point broker_name)).take n).map
          Prod.snd)
    ∧ ((candidatesWithDist toPlanar gdf point broker_name).length ≤ n →
        (find_closest_sensors toPlanar sort_values gdf point broker_name n).Perm
          ((candidatesWithDist toPlanar gdf point broker_name).map Prod.fst)) := by
  refine ⟨rfl, ?_, ?_, ?_⟩
  · simp [find_closest_sensors, List.length_take, hperm.length_eq]
  · have ht := hsorted.sublist (List.take_sublist n _)
    exact List.pairwise_map.mpr ht
  · intro hle
    have hlen : (sort_values (candidatesWithDist toPlanar gdf point broker_name)).length
        ≤ n := by
      rw [hperm.length_eq]
      exact hle
    show ((((sort_values (candidatesWithDist toPlanar gdf point broker_name))).take n).map
      Prod.fst).Perm _
    rw [List.take_of_length_le hlen]
    exact hperm.map Prod.fst

/-- Concrete instantiation of `find_closest_sensors_ordered_truncated`:
three sensors, two of the requested broker at distinct distances (so the
identity is an admissible sort), `n = 5` exceeding the candidate count, and
all candidates are returned. -/
theorem find_closest_sensors_ordered_truncated_witness :
    (candidatesWithDist id [⟨"PER_NORTH", "aq", (0, 0)⟩, ⟨"PER_EAST", "aq", (3, 0)⟩,
        ⟨"PER_WEST", "traffic", (1, 0)⟩] (0, 0) "aq").length ≤ 5 ∧
    (find_closest_sensors id (fun l => l) [⟨"PER_NORTH", "aq", (0, 0)⟩,
        ⟨"PER_EAST", "aq", (3, 0)⟩, ⟨"PER_WEST", "traffic", (1, 0)⟩] (0, 0) "aq" 5).Perm
      ((candidatesWithDist id [⟨"PER_NORTH", "aq", (0, 0)⟩, ⟨"PER_EAST", "aq", (3, 0)⟩,
        ⟨"PER_WEST", "traffic", (1, 0)⟩] (0, 0) "aq").map Prod.fst) :=
  ⟨by decide,
    (find_closest_sensors_ordered_truncated id (fun l => l)
      [⟨"PER_NORTH", "aq", (0, 0)⟩, ⟨"PER_EAST", "aq", (3, 0)⟩,
        ⟨"PER_WEST", "traffic", (1, 0)⟩] (0, 0) "aq" 5 (List.Perm.refl _)
      (by with_unfolding_all decide)).2.2.2 (by decide)⟩

/-- C3 (counterexample): when the broker filter leaves zero candidates the
source raises nothing — the empty frame passes through `sort_values` (here
instantiated with the identity; every function satisfying the sort contract
returns the empty frame on it) and `gdf["Sensor_Name"][0:n]` yields the empty
list, which is returned silently.  No `EmptyResultError` (nor any other error
path for this case) exists anywhere in the repository, so the claim that the
operation "fails with EmptyResultError" is false: here one sensor of broker
`"BrokerA"` is supplied, `"BrokerB"` is requested, and the call returns the
default `[]`. -/
theorem find_closest_sensors_empty_filter_counterexample :
    find_closest_sensors id (fun l => l) [⟨"PER_A", "BrokerA", (0, 0)⟩] (1, 1)
      "BrokerB" 3 = [] := by
  decide

/-- C3 (amended): for every input whose category filter leaves zero candidate
records — and every sort behaviour satisfying `sort_values`' contract (a
permutation of the rows it is given) — `find_closest_sensors` silently
returns the empty list (it neither raises an error nor crashes). -/
theorem find_closest_sensors_empty_filter (toPlanar : Pt → Pt)
    (sort_values : List (String × ℚ) → List (String × ℚ)) (gdf : List SensorLoc)
    (point : Pt) (broker_name : String) (n : Nat)
    (hperm : (sort_values (candidatesWithDist toPlanar gdf point broker_name)).Perm
      (candidatesWithDist toPlanar gdf point broker_name))
    (h : filter_by_broker_name gdf [broker_name] = []) :
    find_closest_sensors toPlanar sort_values gdf point broker_name n = [] := by
  have hc : candidatesWithDist toPlanar gdf point broker_name = [] := by
    rw [candidatesWithDist, h]
    rfl
  rw [hc] at hperm
  have hnil := hperm.eq_nil
  unfold find_closest_sensors
  rw [hc, hnil]
  simp

/-- Concrete instantiation of `find_closest_sensors_empty_filter`. -/
theorem find_closest_sensors_empty_filter_witness :
    filter_by_broker_name [⟨"PER_A", "BrokerA", (0, 0)⟩] ["BrokerB"] = [] ∧
    find_closest_sensors id (fun l => l) [⟨"PER_A", "BrokerA", (0, 0)⟩] (1, 1)
      "BrokerB" 7 = [] :=
  ⟨by decide,
    find_closest_sensors_empty_filter id (fun l => l) [⟨"PER_A", "BrokerA", (0, 0)⟩]
      (1, 1) "BrokerB" 7 (List.Perm.refl _) (by decide)⟩

theorem natListMin_le {l : List Nat} {x : Nat} (hx : x ∈ l) : natListMin l ≤ x := by
  induction l with
  | nil => cases hx
  | cons a r ih =>
    cases r with
    | nil => simp at hx; simp [natListMin, hx]
    | cons b rest =>
      rcases List.mem_cons.mp hx with h | h
      · simp [natListMin, h, min_le_left]
      · exact le_trans (min_le_right _ _) (ih h)

theorem le_natListMax {l : List Nat} {x : Nat} (hx : x ∈ l) : x ≤ natListMax l := by
  induction l with
  | nil => cases hx
  | cons a r ih =>
    cases r with
    | nil => simp at hx; simp [natListMax, hx]
    | cons b rest =>
      rcases List.mem_cons.mp hx with h | h
      · simp [natListMax, h, le_max_left]
      · exact le_trans (ih h) (le_max_right _ _)

theorem meanQ_const {l : List ℚ} {a : ℚ} (hne : l ≠ []) (hall : ∀ x ∈ l, x = a) :
    meanQ l = a := by
  have hsum : l.sum = a * l.length := by
    induction l with
    | nil => simp
    | cons x r ih =>
      have hx : x = a := hall x (List.mem_cons_self _ _)
      have hr : r.sum = a * r.length := by
        rcases r with _ | ⟨y, r'⟩
        · simp
        · exact ih (by simp) (fun z hz => hall z (List.mem_cons_of_mem _ hz))
      simp [hx, hr, List.length_cons]
      ring
  have h0 : l.length ≠ 0 := fun h => hne (List.length_eq_zero.mp h)
  have hlen : (l.length : ℚ) ≠ 0 := Nat.cast_ne_zero.mpr h0
  rw [meanQ, hsum, mul_div_assoc, div_self hlen, mul_one]

theorem any_const {α : Type} {l : List α} {a : α} (f : α → Bool) (ha : a ∈ l)
    (hall : ∀ x ∈ l, x = a) : l.any f = f a := by
  cases hfa : f a
  · simp only [List.any_eq_false]
    intro x hx
    rw [hall x hx, hfa]
    simp
  · exact List.any_eq_true.mpr ⟨a, ha, hfa⟩

/-- All rows of one bucket of one group coincide, when every timestamp is
bucket-aligned and `(sensor, variable, timestamp)` identifies a reading. -/
theorem bucket_rows_eq {rows : List Reading} {freq : Nat}
    (halign : ∀ r ∈ rows, r.t % freq = 0)
    (huniq : ∀ r1 ∈ rows, ∀ r2 ∈ rows, r1.sensorName = r2.sensorName →
      r1.varName = r2.varName → r1.t = r2.t → r1 = r2)
    {s v : String} {b : Nat} {x y : Reading}
    (hx : x ∈ (groupRows rows s v).filter (fun r => bucketOf freq r.t == b))
    (hy : y ∈ (groupRows rows s v).filter (fun r => bucketOf freq r.t == b)) :
    x = y := by
  rw [List.mem_filter, groupRows, List.mem_filter] at hx hy
  obtain ⟨⟨hxr, hxg⟩, hxb⟩ := hx
  obtain ⟨⟨hyr, hyg⟩, hyb⟩ := hy
  simp only [Bool.and_eq_true, beq_iff_eq] at hxg hyg hxb hyb
  have hxt : x.t = b * freq := by
    have := Nat.div_add_mod x.t freq
    rw [halign x hxr, Nat.add_zero] at this
    rw [← this, bucketOf] at *
    rw [hxb, Nat.mul_comm]
  have hyt : y.t = b * freq := by
    have := Nat.div_add_mod y.t freq
    rw [halign y hyr, Nat.add_zero] at this
    rw [← this, bucketOf] at *
    rw [hyb, Nat.mul_comm]
  exact huniq x hxr y hyr (hxg.1.trans hyg.1.symm) (hxg.2.trans hyg.2.symm)
    (hxt.trans hyt.symm)

/-- C8: resampling a series that is already regular at frequency `freq`
(every timestamp bucket-aligned, at most one reading per
`(sensor, variable, timestamp)`) returns exactly the original readings:
each singleton bucket's mean is its element and its flag-max is its flag. -/
theorem resample_sensors_timeseries_identity (rows : List Reading) (freq : Nat)
    (hf : 0 < freq)
    (halign : ∀ r ∈ rows, r.t % freq = 0)
    (huniq : ∀ r1 ∈ rows, ∀ r2 ∈ rows, r1.sensorName = r2.sensorName →
      r1.varName = r2.varName → r1.t = r2.t → r1 = r2) :
    ∀ r, r ∈ resample_sensors_timeseries rows freq ↔ r ∈ rows := by
  intro r
  rw [resample_sensors_timeseries, List.mem_insertionSort, List.mem_flatten]
  constructor
  · rintro ⟨l, hl, hrl⟩
    rw [List.mem_map] at hl
    obtain ⟨k, _, rfl⟩ := hl
    simp only [resampleGroup] at hrl
    rw [List.mem_filterMap] at hrl
    obtain ⟨b, _, hagg⟩ := hrl
    simp only [aggBucket] at hagg
    by_cases hemp : ((groupRows rows k.1 k.2).filter
        (fun x => bucketOf freq x.t == b)).isEmpty
    · rw [if_pos hemp] at hagg
      cases hagg
    · rw [if_neg hemp] at hagg
      obtain ⟨r0, hr0⟩ : ∃ r0, r0 ∈ (groupRows rows k.1 k.2).filter
          (fun x => bucketOf freq x.t == b) := by
        rcases h : (groupRows rows k.1 k.2).filter (fun x => bucketOf freq x.t == b) with
          _ | ⟨a, l⟩
        · rw [h] at hemp; simp at hemp
        · exact ⟨a, h ▸ List.mem_cons_self a l⟩
      have hall : ∀ x ∈ (groupRows rows k.1 k.2).filter
          (fun x => bucketOf freq x.t == b), x = r0 :=
        fun x hx => bucket_rows_eq halign huniq hx hr0
      have hne : (groupRows rows k.1 k.2).filter (fun x => bucketOf freq x.t == b) ≠ [] := by
        intro h; rw [h] at hemp; simp at hemp
      have hmean : meanQ (((groupRows rows k.1 k.2).filter
          (fun x => bucketOf freq x.t == b)).map Reading.value) = r0.value := by
        apply meanQ_const
        · simpa using hne
        · intro x hx
          rw [List.mem_map] at hx
          obtain ⟨y, hy, rfl⟩ := hx
          rw [hall y hy]
      have hany : ((groupRows rows k.1 k.2).filter
          (fun x => bucketOf freq x.t == b)).any Reading.flagged = r0.flagged :=
        any_const _ hr0 hall
      have hr0' := hr0
      rw [List.mem_filter, groupRows, List.mem_filter] at hr0'
      obtain ⟨⟨hr0rows, hr0g⟩, hr0b⟩ := hr0'
      simp only [Bool.and_eq_true, beq_iff_eq] at hr0g hr0b
      have hr0t : r0.t = b * freq := by
        have hdm := Nat.div_add_mod r0.t freq
        rw [halign r0 hr0rows, Nat.add_zero] at hdm
        simp only [bucketOf] at hr0b
        rw [← hdm, hr0b, Nat.mul_comm]
      rw [hmean, hany] at hagg
      have hinj := Option.some.inj hagg
      have hrr0 : r = r0 := by
        rw [← hinj, ← hr0g.1, ← hr0g.2, ← hr0t]
      rw [hrr0]
      exact hr0rows
  · intro hr
    refine ⟨resampleGroup rows freq r.sensorName r.varName, ?_, ?_⟩
    · rw [List.mem_map]
      refine ⟨(r.sensorName, r.varName), ?_, rfl⟩
      rw [groupKeys, List.mem_insertionSort, List.mem_dedup, List.mem_map]
      exact ⟨r, hr, rfl⟩
    · simp only [resampleGroup]
      rw [List.mem_filterMap]
      have hrg : r ∈ groupRows rows r.sensorName r.varName := by
        rw [groupRows, List.mem_filter]
        exact ⟨hr, by simp⟩
      have hbmem : bucketOf freq r.t ∈
          (groupRows rows r.sensorName r.varName).map (fun x => bucketOf freq x.t) :=
        List.mem_map.mpr ⟨r, hrg, rfl⟩
      refine ⟨bucketOf freq r.t, ?_, ?_⟩
      · rw [List.mem_range'_1]
        refine ⟨natListMin_le hbmem, ?_⟩
        have h1 := le_natListMax hbmem
        omega
      · simp only [aggBucket]
        have hrv : r ∈ (groupRows rows r.sensorName r.varName).filter
            (fun x => bucketOf freq x.t == bucketOf freq r.t) := by
          rw [List.mem_filter]
          exact ⟨hrg, by simp⟩
        have hall : ∀ x ∈ (groupRows rows r.sensorName r.varName).filter
            (fun x => bucketOf freq x.t == bucketOf freq r.t), x = r :=
          fun x hx => bucket_rows_eq halign huniq hx hrv
        have hemp : ¬ ((groupRows rows r.sensorName r.varName).filter
            (fun x => bucketOf freq x.t == bucketOf freq r.t)).isEmpty = true := by
          rcases h : (groupRows rows r.sensorName r.varName).filter
            (fun x => bucketOf freq x.t == bucketOf freq r.t) with _ | ⟨a, l⟩
          · rw [h] at hrv; cases hrv
          · rw [h]; simp
        rw [if_neg hemp]
        have hmean : meanQ (((groupRows rows r.sensorName r.varName).filter
            (fun x => bucketOf freq x.t == bucketOf freq r.t)).map Reading.value)
            = r.value := by
          apply meanQ_const
          · intro h
            rw [List.map_eq_nil_iff] at h
            rw [h] at hrv
            cases hrv
          · intro x hx
            rw [List.mem_map] at hx
            obtain ⟨y, hy, rfl⟩ := hx
            rw [hall y hy]
        have hany : ((groupRows rows r.sensorName r.varName).filter
            (fun x => bucketOf freq x.t == bucketOf freq r.t)).any Reading.flagged
            = r.flagged :=
          any_const _ hrv hall
        have ht : bucketOf freq r.t * freq = r.t := by
          rw [bucketOf]
          exact Nat.div_mul_cancel (Nat.dvd_of_mod_eq_zero (halign r hr))
        rw [hmean, hany, ht]

/-- Concrete instantiation of `resample_sensors_timeseries_identity`: two
hourly-aligned readings of one sensor/variable resampled at their native
frequency are reproduced unchanged. -/
theorem resample_sensors_timeseries_identity_witness :
    (⟨"PER_A", "NO2", 0, 1, false⟩ : Reading) ∈
      resample_sensors_timeseries
        [⟨"PER_A", "NO2", 0, 1, false⟩, ⟨"PER_A", "NO2", 2, 3, true⟩] 2 :=
  (resample_sensors_timeseries_identity
      [⟨"PER_A", "NO2", 0, 1, false⟩, ⟨"PER_A", "NO2", 2, 3, true⟩] 2
      (by decide) (by decide) (by decide) _).mpr (by decide)

/-- C7 (counterexample): a nearest-node lookup failure is NOT a recovered
per-record failure: the lookup sits outside the `try` block, so the exception
propagates and the whole batch aborts — no record of the two-element batch is
given a fallback geometry, falsifying "processing of all remaining records
continues". -/
theorem get_road_geometries_abort_counterexample :
    get_road_geometries (fun _ => .error "nearest-node lookup failed")
        (fun _ _ => none) (fun _ => ⟨(0, 0), []⟩) (fun _ => 0)
        [⟨(0, 0), [(1, 1)]⟩, ⟨(2, 2), [(3, 3)]⟩]
      = .error "nearest-node lookup failed" := rfl

/-- With total nearest-node lookups, the routing loop succeeds on every
record: routed geometry on path success, original geometry on failure. -/
theorem mapM_routeOne (nearestNode : Pt → Except String Nat) (nodeOf : Pt → Nat)
    (shortestPath : Nat → Nat → Option (List Nat)) (routeToGeom : List Nat → Geom)
    (hnn : ∀ p, nearestNode p = .ok (nodeOf p)) (gSeries : List Geom) :
    gSeries.mapM (routeOne nearestNode shortestPath routeToGeom)
      = .ok (gSeries.map (fun g =>
          match shortestPath (nodeOf g.startPoint) (nodeOf g.endPoint) with
          | some routeNodes => routeToGeom routeNodes
          | none => g)) := by
  induction gSeries with
  | nil => rfl
  | cons g gs ih =>
    have hone : routeOne nearestNode shortestPath routeToGeom g
        = .ok (match shortestPath (nodeOf g.startPoint) (nodeOf g.endPoint) with
               | some routeNodes => routeToGeom routeNodes
               | none => g) := by
      unfold routeOne
      rw [hnn, hnn]
      show (match shortestPath (nodeOf g.startPoint) (nodeOf g.endPoint) with
            | some routeNodes => (pure (routeToGeom routeNodes) : Except String Geom)
            | none => pure g)
          = .ok (match shortestPath (nodeOf g.startPoint) (nodeOf g.endPoint) with
                 | some routeNodes => routeToGeom routeNodes
                 | none => g)
      rcases shortestPath (nodeOf g.startPoint) (nodeOf g.endPoint) with _ | ns <;> rfl
    rw [List.mapM_cons, hone, ih]
    rfl

/-- C7 (amended): provided every nearest-node lookup succeeds, a per-record
routing failure (no path / geometry error, caught inside the `try`) results in
that record's output being its original straight-line geometry with the length
computed from that fallback, while every other record of the batch is
processed normally (routed records get the routed geometry and its length);
the batch is never aborted by a routing failure.  A nearest-node lookup
failure, in contrast, aborts the batch (see the counterexample). -/
theorem get_road_geometries_fallback (nearestNode : Pt → Except String Nat)
    (nodeOf : Pt → Nat) (shortestPath : Nat → Nat → Option (List Nat))
    (routeToGeom : List Nat → Geom) (lengthOf : Geom → ℚ) (gSeries : List Geom)
    (hnn : ∀ p, nearestNode p = .ok (nodeOf p)) :
    get_road_geometries nearestNode shortestPath routeToGeom lengthOf gSeries
      = .ok (gSeries.map (fun g =>
          match shortestPath (nodeOf g.startPoint) (nodeOf g.endPoint) with
          | some routeNodes => (routeToGeom routeNodes, lengthOf (routeToGeom routeNodes))
          | none => (g, lengthOf g))) := by
  unfold get_road_geometries
  rw [mapM_routeOne nearestNode nodeOf shortestPath routeToGeom hnn gSeries]
  show Except.ok ((gSeries.map _).map _) = _
  rw [List.map_map]
  apply congrArg Except.ok
  apply List.map_congr_left
  intro g _
  show ((match shortestPath (nodeOf g.startPoint) (nodeOf g.endPoint) with
         | some routeNodes => routeToGeom routeNodes
         | none => g),
        lengthOf (match shortestPath (nodeOf g.startPoint) (nodeOf g.endPoint) with
         | some routeNodes => routeToGeom routeNodes
         | none => g)) = _
  rcases shortestPath (nodeOf g.startPoint) (nodeOf g.endPoint) with _ | ns <;> rfl

/-- Concrete instantiation of `get_road_geometries_fallback`: a two-record
batch in which the first record routes normally and the second fails to route
and falls back to its straight line, with the length computed from each final
geometry. -/
theorem get_road_geometries_fallback_witness :
    get_road_geometries (fun p => .ok (if p.1 ≤ 1 then 0 else 1))
        (fun o _ => if o = 0 then some [0, 1] else none)
        (fun _ => ⟨(9, 9), []⟩) (fun g => g.first.1)
        [⟨(0, 0), [(1, 0)]⟩, ⟨(2, 2), [(3, 3)]⟩]
      = .ok [(⟨(9, 9), []⟩, 9), (⟨(2, 2), [(3, 3)]⟩, 2)] :=
  (get_road_geometries_fallback (fun p => .ok (if p.1 ≤ 1 then 0 else 1))
      (fun p => if p.1 ≤ 1 then 0 else 1)
      (fun o _ => if o = 0 then some [0, 1] else none)
      (fun _ => ⟨(9, 9), []⟩) (fun g => g.first.1)
      [⟨(0, 0), [(1, 0)]⟩, ⟨(2, 2), [(3, 3)]⟩] (fun _ => rfl)).trans rfl

/-- C4 (counterexample): the pivot keys on the COMBINED string
`{Sensor_Name}_{Variable}`, not on the `(timestamp, sensor_id, variable)`
triple.  The two rows below have distinct triples — the input is
duplicate-free in the claim's sense — yet `("A_B", "C")` and `("A", "B_C")`
concatenate to the same column name `"A_B_C"` at the same timestamp, so the
pivot fails instead of returning a wide table with one column per pair. -/
theorem convert_long_df_to_wide_counterexample :
    ((([⟨0, "A_B", "C", 1⟩, ⟨0, "A", "B_C", 2⟩] : List LongRow).map
        (fun r => (r.t, r.sensorName, r.varName))).Nodup)
    ∧ convert_long_df_to_wide [⟨0, "A_B", "C", 1⟩, ⟨0, "A", "B_C", 2⟩]
        = .error "Index contains duplicate entries, cannot reshape" :=
  ⟨by decide, rfl⟩

/-- C4 (amended): the pivot detects duplicates on the pair
`(timestamp, "{sensor_id}_{variable}")`: any input with a duplicated
`(timestamp, sensor_id, variable)` triple fails with the duplicate-key error
(and the ambiguity is never resolved last-write-wins), and any input whose
combined keys are duplicate-free yields one column per distinct combined name
`{sensor_id}_{variable}` and one row per distinct timestamp (each sorted,
without duplicates), where cell `(t, c)` holds `v` exactly when some input row
maps to it — absent combinations are null. -/
theorem convert_long_df_to_wide_amended (long_df : List LongRow) :
    (¬ (long_df.map (fun r => (r.t, r.sensorName, r.varName))).Nodup →
      convert_long_df_to_wide long_df
        = .error "Index contains duplicate entries, cannot reshape")
    ∧ ((long_df.map (fun r => (r.t, columnNameOf r))).Nodup →
      ∃ w, convert_long_df_to_wide long_df = .ok w
        ∧ w.timestamps.Nodup ∧ List.Sorted (· ≤ ·) w.timestamps
        ∧ (∀ t, t ∈ w.timestamps ↔ ∃ r ∈ long_df, r.t = t)
        ∧ w.colNames.Nodup ∧ List.Sorted (· ≤ ·) w.colNames
        ∧ (∀ c, c ∈ w.colNames ↔ ∃ r ∈ long_df, columnNameOf r = c)
        ∧ (∀ t c v, w.cell t c = some v ↔
            ∃ r ∈ long_df, r.t = t ∧ columnNameOf r = c ∧ r.value = v)) := by
  constructor
  · intro hdup
    rw [convert_long_df_to_wide, if_neg]
    intro hkeys
    apply hdup
    have : long_df.map (fun r => (r.t, columnNameOf r))
        = (long_df.map (fun r => (r.t, r.sensorName, r.varName))).map
            (fun p => (p.1, p.2.1 ++ "_" ++ p.2.2)) := by
      rw [List.map_map]
      rfl
    rw [this] at hkeys
    exact hkeys.of_map
  · intro hkeys
    refine ⟨_, by rw [convert_long_df_to_wide, if_pos hkeys], ?_, ?_, ?_, ?_, ?_, ?_, ?_⟩
    · exact ((List.perm_insertionSort _ _).nodup_iff).mpr (List.nodup_dedup _)
    · exact List.sorted_insertionSort _ _
    · intro t
      rw [List.mem_insertionSort, List.mem_dedup, List.mem_map]
    · exact ((List.perm_insertionSort _ _).nodup_iff).mpr (List.nodup_dedup _)
    · exact List.sorted_insertionSort _ _
    · intro c
      rw [List.mem_insertionSort, List.mem_dedup, List.mem_map]
    · intro t c v
      constructor
      · intro hcell
        rw [WideDF.cell] at hcell
        rcases hfind : (long_df.map (fun r => (r.t, columnNameOf r, r.value))).find?
            (fun e => e.1 == t && e.2.1 == c) with _ | e
        · rw [hfind] at hcell
          cases hcell
        · rw [hfind] at hcell
          have hmem := List.mem_of_find?_eq_some hfind
          have hp := List.find?_some hfind
          simp only [Bool.and_eq_true, beq_iff_eq] at hp
          rw [List.mem_map] at hmem
          obtain ⟨r, hr, rfl⟩ := hmem
          have hv := Option.some.inj hcell
          exact ⟨r, hr, hp.1, hp.2, hv⟩
      · rintro ⟨r, hr, hrt, hrc, hrv⟩
        show ((long_df.map (fun r => (r.t, columnNameOf r, r.value))).find?
            (fun e => e.1 == t && e.2.1 == c)).map (fun e => e.2.2) = some v
        rcases hfind : (long_df.map (fun r => (r.t, columnNameOf r, r.value))).find?
            (fun e => e.1 == t && e.2.1 == c) with _ | e
        · exfalso
          have := List.find?_eq_none.mp hfind (r.t, columnNameOf r, r.value)
            (List.mem_map.mpr ⟨r, hr, rfl⟩)
          simp [hrt, hrc] at this
        · have hmem := List.mem_of_find?_eq_some hfind
          have hp := List.find?_some hfind
          simp only [Bool.and_eq_true, beq_iff_eq] at hp
          rw [List.mem_map] at hmem
          obtain ⟨r', hr', hre⟩ := hmem
          have hinj := List.inj_on_of_nodup_map hkeys
          have h1 : r'.t = t := by rw [← hre] at hp; exact hp.1
          have h2 : columnNameOf r' = c := by rw [← hre] at hp; exact hp.2
          have hkey : (r'.t, columnNameOf r') = (r.t, columnNameOf r) := by
            rw [h1, h2, hrt, hrc]
          have hr'r : r' = r := hinj hr' hr hkey
          rw [hfind, ← hre, hr'r]
          simp [hrv]

/-- Concrete instantiation of the duplicate-free branch of
`convert_long_df_to_wide_amended`. -/
theorem convert_long_df_to_wide_amended_witness :
    ∃ w, convert_long_df_to_wide [⟨0, "A", "x", 1⟩, ⟨2, "B", "y", 3⟩] = .ok w
      ∧ w.timestamps.Nodup ∧ List.Sorted (· ≤ ·) w.timestamps
      ∧ (∀ t, t ∈ w.timestamps ↔
          ∃ r ∈ ([⟨0, "A", "x", 1⟩, ⟨2, "B", "y", 3⟩] : List LongRow), r.t = t)
      ∧ w.colNames.Nodup ∧ List.Sorted (· ≤ ·) w.colNames
      ∧ (∀ c, c ∈ w.colNames ↔
          ∃ r ∈ ([⟨0, "A", "x", 1⟩, ⟨2, "B", "y", 3⟩] : List LongRow), columnNameOf r = c)
      ∧ (∀ t c v, w.cell t c = some v ↔
          ∃ r ∈ ([⟨0, "A", "x", 1⟩, ⟨2, "B", "y", 3⟩] : List LongRow),
            r.t = t ∧ columnNameOf r = c ∧ r.value = v) :=
  (convert_long_df_to_wide_amended [⟨0, "A", "x", 1⟩, ⟨2, "B", "y", 3⟩]).2 (by decide)

/-- C1 (counterexample): with `max_gap = 1`, the column
`[NaN, 1, NaN, NaN, 4, NaN]` (unchanged by the negative/outlier stages, as
the first conjunct certifies) has an interior null run of length `2 > max_gap`
— which the claim requires to remain entirely null — and boundary nulls —
which the claim requires never to be filled ("never extrapolated").  The
code fills ALL of them: pandas' `limit` only preserves nulls farther than
`limit` from a valid entry in BOTH directions, so the interior run is filled
from its two ends, and `limit_direction="both"` fills the leading/trailing
nulls with the clamped boundary values 1 and 4. -/
theorem clean_data_gap_limit_counterexample :
    nullOutliers (nullNegatives [none, some 1, none, none, some 4, none])
        = [none, some 1, none, none, some 4, none]
    ∧ clean_data [[none, some 1, none, none, some 4, none]] 1
        = [[some 1, some 1, some 2, some 3, some 4, some 4]] := by
  exact ⟨by with_unfolding_all decide, by with_unfolding_all decide⟩

/-! ### Support lemmas for the interpolation semantics -/

theorem getD_drop (col : List (Option ℚ)) (s e : Nat) :
    (col.drop s).getD e none = col.getD (s + e) none := by
  rw [List.getD_eq_getElem?_getD, List.getD_eq_getElem?_getD, List.getElem?_drop]

theorem getD_some_lt_length {l : List (Option ℚ)} {i : Nat} {v : ℚ}
    (h : l.getD i none = some v) : i < l.length := by
  by_contra hle
  rw [List.getD_eq_default _ _ (le_of_not_lt hle)] at h
  cases h

theorem getD_isSome_lt_length {l : List (Option ℚ)} {i : Nat}
    (h : (l.getD i none).isSome) : i < l.length := by
  obtain ⟨v, hv⟩ := Option.isSome_iff_exists.mp h
  exact getD_some_lt_length hv

theorem prevValidIdx_spec {col : List (Option ℚ)} {i p : Nat}
    (h : prevValidIdx col i = some p) : p < i ∧ (col.getD p none).isSome := by
  induction i with
  | zero => cases h
  | succ m ih =>
    simp only [prevValidIdx] at h
    by_cases hm : (col.getD m none).isSome
    · rw [if_pos hm] at h
      injection h with h'
      subst h'
      exact ⟨Nat.lt_succ_self _, hm⟩
    · rw [if_neg hm] at h
      obtain ⟨h1, h2⟩ := ih h
      exact ⟨Nat.lt_succ_of_lt h1, h2⟩

theorem prevValidIdx_eq_some {col : List (Option ℚ)} {p i : Nat}
    (hp : (col.getD p none).isSome) (hpi : p < i)
    (hmid : ∀ j, p < j → j < i → col.getD j none = none) :
    prevValidIdx col i = some p := by
  induction i with
  | zero => omega
  | succ m ih =>
    rcases Nat.lt_succ_iff_lt_or_eq.mp hpi with h | h
    · have hm : col.getD m none = none := hmid m h (Nat.lt_succ_self m)
      simp only [prevValidIdx]
      rw [if_neg (by rw [hm]; simp)]
      exact ih h (fun j hj1 hj2 => hmid j hj1 (Nat.lt_succ_of_lt hj2))
    · subst h
      simp only [prevValidIdx]
      rw [if_pos hp]

theorem prevValidIdx_eq_none {col : List (Option ℚ)} {i : Nat}
    (h : ∀ j, j < i → col.getD j none = none) : prevValidIdx col i = none := by
  induction i with
  | zero => rfl
  | succ m ih =>
    simp only [prevValidIdx]
    rw [if_neg (by rw [h m (Nat.lt_succ_self m)]; simp)]
    exact ih (fun j hj => h j (Nat.lt_succ_of_lt hj))

theorem firstSomeIdx_spec {l : List (Option ℚ)} {d : Nat}
    (h : firstSomeIdx l = some d) : (l.getD d none).isSome := by
  induction l generalizing d with
  | nil => cases h
  | cons x xs ih =>
    cases x with
    | some v =>
      simp only [firstSomeIdx] at h
      cases h
      simp [List.getD_cons_zero]
    | none =>
      simp only [firstSomeIdx] at h
      rcases hx : firstSomeIdx xs with _ | d'
      · rw [hx] at h; cases h
      · rw [hx] at h
        simp only [Option.map_some'] at h
        cases h
        simpa [List.getD_cons_succ] using ih hx

theorem firstSomeIdx_eq_some {l : List (Option ℚ)} {d : Nat}
    (hd : (l.getD d none).isSome) (hbefore : ∀ e, e < d → l.getD e none = none) :
    firstSomeIdx l = some d := by
  induction l generalizing d with
  | nil =>
    rw [List.getD_eq_default _ _ (Nat.zero_le d)] at hd
    cases hd
  | cons x xs ih =>
    cases d with
    | zero =>
      cases x with
      | some v => rfl
      | none => rw [List.getD_cons_zero] at hd; cases hd
    | succ d' =>
      have h0 : x = none := by
        have := hbefore 0 (Nat.succ_pos d')
        rwa [List.getD_cons_zero] at this
      subst h0
      simp only [firstSomeIdx]
      rw [ih (by rwa [List.getD_cons_succ] at hd) (fun e he => by
        have := hbefore (e + 1) (Nat.succ_lt_succ he)
        rwa [List.getD_cons_succ] at this)]
      rfl

theorem firstSomeIdx_eq_none {l : List (Option ℚ)}
    (h : ∀ e, l.getD e none = none) : firstSomeIdx l = none := by
  induction l with
  | nil => rfl
  | cons x xs ih =>
    have h0 := h 0
    rw [List.getD_cons_zero] at h0
    subst h0
    simp only [firstSomeIdx]
    rw [ih (fun e => by have := h (e + 1); rwa [List.getD_cons_succ] at this)]
    rfl

theorem nextValidIdx_spec {col : List (Option ℚ)} {i q : Nat}
    (h : nextValidIdx col i = some q) : i < q ∧ (col.getD q none).isSome := by
  simp only [nextValidIdx] at h
  rcases hx : firstSomeIdx (col.drop (i + 1)) with _ | d
  · rw [hx] at h; cases h
  · rw [hx] at h
    simp only [Option.map_some'] at h
    cases h
    have hs := firstSomeIdx_spec hx
    rw [getD_drop] at hs
    have he : i + 1 + d = d + (i + 1) := by omega
    rw [he] at hs
    exact ⟨by omega, hs⟩

theorem nextValidIdx_eq_some {col : List (Option ℚ)} {i q : Nat}
    (hq : (col.getD q none).isSome) (hiq : i < q)
    (hmid : ∀ j, i < j → j < q → col.getD j none = none) :
    nextValidIdx col i = some q := by
  have h1 : ((col.drop (i + 1)).getD (q - (i + 1)) none).isSome := by
    rw [getD_drop]
    have he : i + 1 + (q - (i + 1)) = q := by omega
    rwa [he]
  have h2 : ∀ e, e < q - (i + 1) → (col.drop (i + 1)).getD e none = none := by
    intro e he
    rw [getD_drop]
    exact hmid (i + 1 + e) (by omega) (by omega)
  simp only [nextValidIdx, firstSomeIdx_eq_some h1 h2, Option.map_some']
  congr 1
  omega

theorem nextValidIdx_eq_none {col : List (Option ℚ)} {i : Nat}
    (h : ∀ j, i < j → col.getD j none = none) : nextValidIdx col i = none := by
  have hn : firstSomeIdx (col.drop (i + 1)) = none :=
    firstSomeIdx_eq_none (fun e => by rw [getD_drop]; exact h (i + 1 + e) (by omega))
  simp only [nextValidIdx, hn]
  rfl

theorem interpolateTimeBoth_length (col : List (Option ℚ)) (k : Nat) :
    (interpolateTimeBoth col k).length = col.length := by
  simp [interpolateTimeBoth]

theorem interpolateTimeBoth_getD (col : List (Option ℚ)) (k i : Nat)
    (hi : i < col.length) :
    (interpolateTimeBoth col k).getD i none
      = match col.getD i none with
        | some v => some v
        | none =>
            if ((match prevValidIdx col i with
                 | some p => decide (i - p ≤ k)
                 | none => false)
              || (match nextValidIdx col i with
                 | some q => decide (q - i ≤ k)
                 | none => false))
            then interpValue col i else none := by
  simp only [interpolateTimeBoth]
  rw [List.getD_eq_getElem?_getD, List.getElem?_map, List.getElem?_range hi]
  rfl

/-- C1 (amended): in every column cleaned by `clean_data`, writing `mid` for
the column after the negative/outlier stages (whose null runs the claim is
about): (i) inside a null run bounded by valid values `vp` at `p` and `vq` at
`q`, exactly the positions within `max_gap` of either bounding valid value are
filled, by time-weighted linear interpolation — in particular a bounded run of
length `≤ max_gap` is fully filled, while positions farther than `max_gap`
from both bounds (which exist exactly when the run is longer than
`2·max_gap`) remain null; (ii) a leading null run is filled backward, with the
clamped first valid value, at the positions within `max_gap` of it, the rest
remaining null; (iii) symmetrically for a trailing run with the last valid
value.  (So runs longer than `max_gap` do not, in general, remain null, and
boundary values are extrapolated by constant padding — the two respects in
which the original claim fails.) -/
theorem clean_data_gap_limit (df : List (List (Option ℚ))) (max_gap : Nat)
    (col : List (Option ℚ)) (hcol : col ∈ df) :
    cleanColumn col max_gap ∈ clean_data df max_gap
    ∧ (∀ p q vp vq,
        (nullOutliers (nullNegatives col)).getD p none = some vp →
        (nullOutliers (nullNegatives col)).getD q none = some vq →
        p < q →
        (∀ j, p < j → j < q → (nullOutliers (nullNegatives col)).getD j none = none) →
        (∀ i, p < i → i < q → (i - p ≤ max_gap ∨ q - i ≤ max_gap) →
          (cleanColumn col max_gap).getD i none
            = some (vp + (vq - vp) * ((i : ℚ) - p) / ((q : ℚ) - p)))
        ∧ (∀ i, p < i → i < q → max_gap < i - p → max_gap < q - i →
          (cleanColumn col max_gap).getD i none = none))
    ∧ (∀ q vq,
        (nullOutliers (nullNegatives col)).getD q none = some vq →
        (∀ j, j < q → (nullOutliers (nullNegatives col)).getD j none = none) →
        ∀ i, i < q →
          (q - i ≤ max_gap → (cleanColumn col max_gap).getD i none = some vq)
          ∧ (max_gap < q - i → (cleanColumn col max_gap).getD i none = none))
    ∧ (∀ p vp,
        (nullOutliers (nullNegatives col)).getD p none = some vp →
        (∀ j, p < j → (nullOutliers (nullNegatives col)).getD j none = none) →
        ∀ i, p < i → i < (nullOutliers (nullNegatives col)).length →
          (i - p ≤ max_gap → (cleanColumn col max_gap).getD i none = some vp)
          ∧ (max_gap < i - p → (cleanColumn col max_gap).getD i none = none)) := by
  refine ⟨List.mem_map.mpr ⟨col, hcol, rfl⟩, ?_, ?_, ?_⟩
  · intro p q vp vq hvp hvq hpq hrun
    have hqlen : q < (nullOutliers (nullNegatives col)).length :=
      getD_some_lt_length hvq
    constructor
    · intro i hpi hiq hnear
      have hilen : i < (nullOutliers (nullNegatives col)).length := lt_trans hiq hqlen
      have hmidi : (nullOutliers (nullNegatives col)).getD i none = none := hrun i hpi hiq
      have hprev : prevValidIdx (nullOutliers (nullNegatives col)) i = some p :=
        prevValidIdx_eq_some (by rw [hvp]; rfl) hpi
          (fun j hj1 hj2 => hrun j hj1 (lt_trans hj2 hiq))
      have hnext : nextValidIdx (nullOutliers (nullNegatives col)) i = some q :=
        nextValidIdx_eq_some (by rw [hvq]; rfl) hiq
          (fun j hj1 hj2 => hrun j (lt_trans hpi hj1) hj2)
      show (interpolateTimeBoth (nullOutliers (nullNegatives col)) max_gap).getD i none = _
      rw [interpolateTimeBoth_getD _ _ _ hilen]
      simp only [hmidi, hprev, hnext]
      rw [if_pos (by rcases hnear with h | h <;> simp [h])]
      simp only [interpValue, hprev, hnext, hvp, hvq]
    · intro i hpi hiq hfar1 hfar2
      have hilen : i < (nullOutliers (nullNegatives col)).length := lt_trans hiq hqlen
      have hmidi : (nullOutliers (nullNegatives col)).getD i none = none := hrun i hpi hiq
      have hprev : prevValidIdx (nullOutliers (nullNegatives col)) i = some p :=
        prevValidIdx_eq_some (by rw [hvp]; rfl) hpi
          (fun j hj1 hj2 => hrun j hj1 (lt_trans hj2 hiq))
      have hnext : nextValidIdx (nullOutliers (nullNegatives col)) i = some q :=
        nextValidIdx_eq_some (by rw [hvq]; rfl) hiq
          (fun j hj1 hj2 => hrun j (lt_trans hpi hj1) hj2)
      show (interpolateTimeBoth (nullOutliers (nullNegatives col)) max_gap).getD i none = _
      rw [interpolateTimeBoth_getD _ _ _ hilen]
      simp only [hmidi, hprev, hnext]
      rw [if_neg (by simp [Nat.not_le.mpr hfar1, Nat.not_le.mpr hfar2])]
  · intro q vq hvq hlead i hiq
    have hqlen : q < (nullOutliers (nullNegatives col)).length :=
      getD_some_lt_length hvq
    have hilen : i < (nullOutliers (nullNegatives col)).length := lt_trans hiq hqlen
    have hmidi : (nullOutliers (nullNegatives col)).getD i none = none := hlead i hiq
    have hprev : prevValidIdx (nullOutliers (nullNegatives col)) i = none :=
      prevValidIdx_eq_none (fun j hj => hlead j (lt_trans hj hiq))
    have hnext : nextValidIdx (nullOutliers (nullNegatives col)) i = some q :=
      nextValidIdx_eq_some (by rw [hvq]; rfl) hiq (fun j hj1 hj2 => hlead j hj2)
    constructor
    · intro hnear
      show (interpolateTimeBoth (nullOutliers (nullNegatives col)) max_gap).getD i none = _
      rw [interpolateTimeBoth_getD _ _ _ hilen]
      simp only [hmidi, hprev, hnext]
      rw [if_pos (by simp [hnear])]
      simp only [interpValue, hprev, hnext, hvq]
    · intro hfar
      show (interpolateTimeBoth (nullOutliers (nullNegatives col)) max_gap).getD i none = _
      rw [interpolateTimeBoth_getD _ _ _ hilen]
      simp only [hmidi, hprev, hnext]
      rw [if_neg (by simp [Nat.not_le.mpr hfar])]
  · intro p vp hvp htrail i hpi hilen
    have hmidi : (nullOutliers (nullNegatives col)).getD i none = none := htrail i hpi
    have hprev : prevValidIdx (nullOutliers (nullNegatives col)) i = some p :=
      prevValidIdx_eq_some (by rw [hvp]; rfl) hpi (fun j hj1 hj2 => htrail j hj1)
    have hnext : nextValidIdx (nullOutliers (nullNegatives col)) i = none :=
      nextValidIdx_eq_none (fun j hj => htrail j (lt_trans hpi hj))
    constructor
    · intro hnear
      show (interpolateTimeBoth (nullOutliers (nullNegatives col)) max_gap).getD i none = _
      rw [interpolateTimeBoth_getD _ _ _ hilen]
      simp only [hmidi, hprev, hnext]
      rw [if_pos (by simp [hnear])]
      simp only [interpValue, hprev, hnext, hvp]
    · intro hfar
      show (interpolateTimeBoth (nullOutliers (nullNegatives col)) max_gap).getD i none = _
      rw [interpolateTimeBoth_getD _ _ _ hilen]
      simp only [hmidi, hprev, hnext]
      rw [if_neg (by simp [Nat.not_le.mpr hfar])]

/-- Concrete instantiation of `clean_data_gap_limit`: a one-null run bounded
by 1 and 4 with `max_gap = 1` is filled by time-weighted linear
interpolation. -/
theorem clean_data_gap_limit_witness :
    (cleanColumn [some 1, none, some 4] 1).getD 1 none
      = some (1 + (4 - 1) * ((1 : ℚ) - (0 : Nat)) / ((2 : Nat) - (0 : Nat))) :=
  (((clean_data_gap_limit [[some 1, none, some 4]] 1 [some 1, none, some 4]
      (by decide)).2.1) 0 2 1 4
      (by with_unfolding_all decide) (by with_unfolding_all decide) (by decide)
      (fun j h1 h2 => by
        have hj : j = 1 := by omega
        subst hj
        with_unfolding_all decide)).1 1 (by decide) (by decide) (by decide)

/-- A value obtained as a convex combination of two values inside
`[lo, hi]` — the time-weighted interpolation between grid positions
`p < i < q` — stays inside `[lo, hi]`. -/
theorem convex_bounds {lo hi vp vq : ℚ} {p i q : Nat} (h1 : p < i) (h2 : i < q)
    (hvp1 : lo ≤ vp) (hvp2 : vp ≤ hi) (hvq1 : lo ≤ vq) (hvq2 : vq ≤ hi) :
    lo ≤ vp + (vq - vp) * ((i : ℚ) - p) / ((q : ℚ) - p)
    ∧ vp + (vq - vp) * ((i : ℚ) - p) / ((q : ℚ) - p) ≤ hi := by
  have hpi : (p : ℚ) < i := by exact_mod_cast h1
  have hiq : (i : ℚ) < q := by exact_mod_cast h2
  have hqp : (0 : ℚ) < (q : ℚ) - p := by linarith
  have key : ∀ t : ℚ, 0 ≤ t → t ≤ 1 →
      lo ≤ vp + (vq - vp) * t ∧ vp + (vq - vp) * t ≤ hi := by
    intro t ht0 ht1
    constructor
    · nlinarith [mul_nonneg (sub_nonneg.mpr hvp1) (sub_nonneg.mpr ht1),
        mul_nonneg (sub_nonneg.mpr hvq1) ht0]
    · nlinarith [mul_nonneg (sub_nonneg.mpr hvp2) (sub_nonneg.mpr ht1),
        mul_nonneg (sub_nonneg.mpr hvq2) ht0]
  have ht0 : 0 ≤ ((i : ℚ) - p) / ((q : ℚ) - p) :=
    div_nonneg (by linarith) (le_of_lt hqp)
  have ht1 : ((i : ℚ) - p) / ((q : ℚ) - p) ≤ 1 := by
    rw [div_le_one hqp]
    linarith
  have hassoc : vp + (vq - vp) * ((i : ℚ) - p) / ((q : ℚ) - p)
      = vp + (vq - vp) * (((i : ℚ) - p) / ((q : ℚ) - p)) := by
    ring
  rw [hassoc]
  exact key _ ht0 ht1

/-- C6: in `clean_data`, negatives are nulled first, the per-column IQR
bounds `[Q1 − 3·IQR, Q3 + 3·IQR]` are then computed over the remaining
non-null values, values outside the bounds are nulled — and consequently
every non-null value of a cleaned column (the values that survive the
outlier mask together with the values interpolation creates from them, which
are convex combinations or copies of survivors) lies within those bounds. -/
theorem clean_data_outlier_bounds (df : List (List (Option ℚ))) (max_gap : Nat)
    (col : List (Option ℚ)) (hcol : col ∈ df) (lo hi : ℚ)
    (hlo : lowerBoundOf (nullNegatives col) = some lo)
    (hhi : upperBoundOf (nullNegatives col) = some hi) :
    cleanColumn col max_gap ∈ clean_data df max_gap
    ∧ ∀ i v, (cleanColumn col max_gap).getD i none = some v → lo ≤ v ∧ v ≤ hi := by
  have hmid_eq : nullOutliers (nullNegatives col)
      = (nullNegatives col).map
          (fun x => x.bind (fun v => if v < lo ∨ hi < v then none else some v)) := by
    unfold nullOutliers
    rw [hlo, hhi]
  have hbound : ∀ j w, (nullOutliers (nullNegatives col)).getD j none = some w →
      lo ≤ w ∧ w ≤ hi := by
    intro j w hw
    rw [hmid_eq, List.getD_eq_getElem?_getD, List.getElem?_map] at hw
    rcases hj : (nullNegatives col)[j]? with _ | x
    · rw [hj] at hw; cases hw
    · rw [hj] at hw
      simp only [Option.map_some', Option.getD_some] at hw
      rcases x with _ | v
      · cases hw
      · rw [Option.some_bind] at hw
        by_cases hcond : v < lo ∨ hi < v
        · rw [if_pos hcond] at hw; cases hw
        · rw [if_neg hcond] at hw
          injection hw with hw'
          subst hw'
          push_neg at hcond
          exact hcond
  refine ⟨List.mem_map.mpr ⟨col, hcol, rfl⟩, ?_⟩
  intro i v hv
  have hilen : i < (nullOutliers (nullNegatives col)).length := by
    have := getD_some_lt_length hv
    rwa [cleanColumn, interpolateTimeBoth_length] at this
  rw [cleanColumn, interpolateTimeBoth_getD _ _ _ hilen] at hv
  rcases hmidi : (nullOutliers (nullNegatives col)).getD i none with _ | v'
  · rw [hmidi] at hv
    simp only at hv
    by_cases hcond : ((match prevValidIdx (nullOutliers (nullNegatives col)) i with
        | some p => decide (i - p ≤ max_gap)
        | none => false)
      || (match nextValidIdx (nullOutliers (nullNegatives col)) i with
        | some q => decide (q - i ≤ max_gap)
        | none => false)) = true
    · rw [if_pos hcond] at hv
      rcases hprev : prevValidIdx (nullOutliers (nullNegatives col)) i with _ | p <;>
        rcases hnext : nextValidIdx (nullOutliers (nullNegatives col)) i with _ | q
      · rw [interpValue, hprev, hnext] at hv
        cases hv
      · rw [interpValue, hprev, hnext] at hv
        exact hbound q v hv
      · rw [interpValue, hprev, hnext] at hv
        exact hbound p v hv
      · obtain ⟨hpi, hpsome⟩ := prevValidIdx_spec hprev
        obtain ⟨hiq, hqsome⟩ := nextValidIdx_spec hnext
        obtain ⟨vp, hvp⟩ := Option.isSome_iff_exists.mp hpsome
        obtain ⟨vq, hvq⟩ := Option.isSome_iff_exists.mp hqsome
        simp only [interpValue, hprev, hnext, hvp, hvq, Option.some.injEq] at hv
        subst hv
        obtain ⟨hp1, hp2⟩ := hbound p vp hvp
        obtain ⟨hq1, hq2⟩ := hbound q vq hvq
        exact convex_bounds hpi hiq hp1 hp2 hq1 hq2
    · rw [if_neg hcond] at hv
      cases hv
  · rw [hmidi] at hv
    simp only at hv
    injection hv with hv'
    subst hv'
    exact hbound i v' hmidi

/-- Concrete instantiation of `clean_data_outlier_bounds` on the column
`[1, 2, 3, 4]`: `Q1 = 7/4`, `Q3 = 13/4`, `IQR = 3/2`, bounds
`[−11/4, 31/4]`, and the surviving value 1 lies within them. -/
theorem clean_data_outlier_bounds_witness :
    (-11/4 : ℚ) ≤ 1 ∧ (1 : ℚ) ≤ 31/4 :=
  (clean_data_outlier_bounds [[some 1, some 2, some 3, some 4]] 24
      [some 1, some 2, some 3, some 4] (by decide) (-11/4) (31/4)
      (by with_unfolding_all decide) (by with_unfolding_all decide)).2 0 1
      (by with_unfolding_all decide)

/-- C9: whatever series the smoothing steps of MSTL produce, at every row of
`decompose_timeseries`' result the `Original` column (the gap-filled input)
equals `trend + Daily + Weekly + Monthly + resid` exactly — the additive
reconstruction invariant, which holds because statsmodels defines the
residual as the remainder of the deseasonalised, detrended series. -/
theorem decompose_timeseries_reconstruction
    (trendF seasF24 seasF168 seasF730 : List ℚ → List ℚ) (index : List Nat)
    (data : List (Option ℚ)) (res : List DecompRow)
    (hres : decompose_timeseries trendF seasF24 seasF168 seasF730 index data = some res) :
    ∀ row ∈ res,
      row.original = row.trend + row.daily + row.weekly + row.monthly + row.resid := by
  by_cases hall : (interpolateLinearForward data).all (fun x => x.isSome)
  · simp only [decompose_timeseries] at hres
    rw [if_pos hall] at hres
    injection hres with hres'
    subst hres'
    intro row hrow
    simp only [mstlFit, List.mem_map] at hrow
    obtain ⟨i, _, rfl⟩ := hrow
    simp only
    ring
  · simp only [decompose_timeseries] at hres
    rw [if_neg hall] at hres
    cases hres

/-- Concrete instantiation of `decompose_timeseries_reconstruction` with a
trend equal to the data and zero seasonal components. -/
theorem decompose_timeseries_reconstruction_witness :
    (⟨2, 2, 0, 0, 0, 0⟩ : DecompRow).original
      = (⟨2, 2, 0, 0, 0, 0⟩ : DecompRow).trend + (⟨2, 2, 0, 0, 0, 0⟩ : DecompRow).daily
        + (⟨2, 2, 0, 0, 0, 0⟩ : DecompRow).weekly + (⟨2, 2, 0, 0, 0, 0⟩ : DecompRow).monthly
        + (⟨2, 2, 0, 0, 0, 0⟩ : DecompRow).resid :=
  decompose_timeseries_reconstruction (fun y => y) (fun y => y.map (fun _ => 0))
    (fun y => y.map (fun _ => 0)) (fun y => y.map (fun _ => 0)) [0, 1]
    [some 2, some 6] [⟨2, 2, 0, 0, 0, 0⟩, ⟨6, 6, 0, 0, 0, 0⟩]
    (by with_unfolding_all decide) ⟨2, 2, 0, 0, 0, 0⟩ (by decide)

/-- C10: `decompose_timeseries` never reads its first (`index`) parameter:
for any two index arguments and the same data, the results are identical. -/
theorem decompose_timeseries_ignores_index
    (trendF seasF24 seasF168 seasF730 : List ℚ → List ℚ)
    (i1 i2 : List Nat) (data : List (Option ℚ)) :
    decompose_timeseries trendF seasF24 seasF168 seasF730 i1 data
      = decompose_timeseries trendF seasF24 seasF168 seasF730 i2 data := rfl

theorem idxmaxP_mem (b : TS × ℚ) (l : List (TS × ℚ)) :
    idxmaxP b l = b ∨ idxmaxP b l ∈ l := by
  induction l generalizing b with
  | nil => exact Or.inl rfl
  | cons x xs ih =>
    simp only [idxmaxP]
    by_cases h : b.2 < x.2
    · rw [if_pos h]
      rcases ih x with h' | h'
      · exact Or.inr (by rw [h']; exact List.mem_cons_self x xs)
      · exact Or.inr (List.mem_cons_of_mem x h')
    · rw [if_neg h]
      rcases ih b with h' | h'
      · exact Or.inl h'
      · exact Or.inr (List.mem_cons_of_mem x h')

theorem idxmaxP_ge (b : TS × ℚ) (l : List (TS × ℚ)) :
    b.2 ≤ (idxmaxP b l).2 ∧ ∀ x ∈ l, x.2 ≤ (idxmaxP b l).2 := by
  induction l generalizing b with
  | nil => exact ⟨le_refl _, fun x hx => absurd hx (List.not_mem_nil x)⟩
  | cons x xs ih =>
    simp only [idxmaxP]
    by_cases h : b.2 < x.2
    · rw [if_pos h]
      obtain ⟨h1, h2⟩ := ih x
      refine ⟨le_trans (le_of_lt h) h1, fun y hy => ?_⟩
      rcases List.mem_cons.mp hy with hy | hy
      · exact hy ▸ h1
      · exact h2 y hy
    · rw [if_neg h]
      obtain ⟨h1, h2⟩ := ih b
      refine ⟨h1, fun y hy => ?_⟩
      rcases List.mem_cons.mp hy with hy | hy
      · exact hy ▸ le_trans (le_of_not_lt h) h1
      · exact h2 y hy

/-- C5: when a matching column exists (`ci` its first index):
`get_valid_scenario_dates` fails with the Thursday message when no
Thursday-17:00 row has data in that column; fails with the Monday message
when Thursdays have data but no Monday-10:00 row does; and otherwise returns
`(w, first-Monday-timestamp)` where `w` is the timestamp of a valid
Thursday-17:00 row whose value is maximal among them. -/
theorem get_valid_scenario_dates_spec (df : ScenarioDF) (variable_suffix : String)
    (ci : Nat)
    (hci : df.colNames.findIdx? (fun c => c.endsWith variable_suffix) = some ci) :
    (validAt ci (thursdayRows df) = [] →
      get_valid_scenario_dates df variable_suffix
        = .error "No valid data found for any Thursday at 17:00")
    ∧ (validAt ci (thursdayRows df) ≠ [] → validAt ci (mondayRows df) = [] →
      get_valid_scenario_dates df variable_suffix
        = .error "No valid data found for any Monday at 10:00")
    ∧ (∀ t0 restT m0 restM,
        validAt ci (thursdayRows df) = t0 :: restT →
        validAt ci (mondayRows df) = m0 :: restM →
        ∃ w, get_valid_scenario_dates df variable_suffix = .ok (w.1, m0.1)
          ∧ w ∈ validAt ci (thursdayRows df)
          ∧ ∀ x ∈ validAt ci (thursdayRows df), x.2 ≤ w.2) := by
  refine ⟨?_, ?_, ?_⟩
  · intro hthurs
    simp only [get_valid_scenario_dates, hci, hthurs]
  · intro hthurs hmon
    rcases ht : validAt ci (thursdayRows df) with _ | ⟨t0, restT⟩
    · exact absurd ht hthurs
    · simp only [get_valid_scenario_dates, hci, ht, hmon]
  · intro t0 restT m0 restM ht hm
    refine ⟨idxmaxP t0 restT, ?_, ?_, ?_⟩
    · simp only [get_valid_scenario_dates, hci, ht, hm]
    · rcases idxmaxP_mem t0 restT with h | h
      · rw [h, ht]
        exact List.mem_cons_self _ _
      · rw [ht]
        exact List.mem_cons_of_mem _ h
    · intro x hx
      rw [ht] at hx
      obtain ⟨h1, h2⟩ := idxmaxP_ge t0 restT
      rcases List.mem_cons.mp hx with hx | hx
      · exact hx ▸ h1
      · exact h2 x hx

/-- Concrete instantiation of `get_valid_scenario_dates_spec`: two populated
Thursday-17:00 rows (values 42 and 7) and two populated Monday-10:00 rows;
the result pairs the timestamp of the maximal Thursday value with the first
Monday timestamp. -/
theorem get_valid_scenario_dates_spec_witness :
    ∃ w, get_valid_scenario_dates
        ⟨["S1_NO2"],
          [(⟨0, 10, 5⟩, [some 1]), (⟨3, 17, 10⟩, [some 42]),
           (⟨3, 17, 20⟩, [some 7]), (⟨0, 10, 30⟩, [some 9])]⟩ "NO2"
        = .ok (w.1, ((⟨0, 10, 5⟩, (1 : ℚ)) : TS × ℚ).1)
      ∧ w ∈ validAt 0 (thursdayRows
          ⟨["S1_NO2"],
            [(⟨0, 10, 5⟩, [some 1]), (⟨3, 17, 10⟩, [some 42]),
             (⟨3, 17, 20⟩, [some 7]), (⟨0, 10, 30⟩, [some 9])]⟩)
      ∧ ∀ x ∈ validAt 0 (thursdayRows
          ⟨["S1_NO2"],
            [(⟨0, 10, 5⟩, [some 1]), (⟨3, 17, 10⟩, [some 42]),
             (⟨3, 17, 20⟩, [some 7]), (⟨0, 10, 30⟩, [some 9])]⟩), x.2 ≤ w.2 :=
  (get_valid_scenario_dates_spec
      ⟨["S1_NO2"],
        [(⟨0, 10, 5⟩, [some 1]), (⟨3, 17, 10⟩, [some 42]),
         (⟨3, 17, 20⟩, [some 7]), (⟨0, 10, 30⟩, [some 9])]⟩ "NO2" 0
      (by with_unfolding_all decide)).2.2
    (⟨3, 17, 10⟩, 42) [(⟨3, 17, 20⟩, 7)] (⟨0, 10, 5⟩, 1) [(⟨0, 10, 30⟩, 9)]
    (by decide) (by decide)

end DataAnalysis

